import Mathlib

/-!
# Verification of `astrology_compatibility_calculator.py`

Shallow embedding of the computational core of the script
`src/astrology_compatibility_calculator.py`:

* the aspect scorer `calculate_score` (lines 100-124),
* the zodiac mapper `get_zodiac` (lines 126-138),
* the min/max score normalization (lines 172-173),
* the zodiac-transition marking loop (lines 176-183).

Modelling choices:

* Python floats are modelled as `Option ℚ`: `some q` is an ordinary
  (exact) value, `none` models IEEE NaN (the script fills missing
  ephemeris samples with `np.nan`, line 97).  Every float comparison
  with NaN is false, and arithmetic on NaN yields NaN; the `Option`
  operations below reproduce exactly that.
* Python float `%` on a positive modulus has floor semantics
  (`a % m = a - m*⌊a/m⌋`), embedded as `qmod`.
* `round(x, 2)` is embedded as rounding `x*100` to the nearest integer
  (`round2`).  Python floats round half to even; the embedding rounds
  half up, which agrees everywhere except at exact `.xx5` ties.
* `np.log1p(hits)` is `Real.log (1 + hits)`.
-/

namespace Astro

/-- The seven celestial bodies: the keys of `PLANET_IDS` in source order
(Sonne, Mond, Merkur, Venus, Mars, Jupiter, Saturn). -/
inductive Planet
  | Sonne
  | Mond
  | Merkur
  | Venus
  | Mars
  | Jupiter
  | Saturn
deriving DecidableEq

/-- Iteration order of the `PLANET_IDS` dictionary (Python dicts iterate in
insertion order). -/
def planets : List Planet :=
  [.Sonne, .Mond, .Merkur, .Venus, .Mars, .Jupiter, .Saturn]

/-- Membership in `PRIORITY_PLANETS = ['Sonne', 'Venus', 'Mars']`. -/
def isPriority : Planet → Bool
  | .Sonne => true
  | .Venus => true
  | .Mars => true
  | _ => false

/-- The rule table
`ASPECTS = [(0, 8, 100), (60, 6, 70), (90, 8, 25), (120, 8, 90), (180, 8, 40)]`:
(angle, orb, base score). -/
def ASPECTS : List (ℚ × ℚ × ℚ) :=
  [(0, 8, 100), (60, 6, 70), (90, 8, 25), (120, 8, 90), (180, 8, 40)]

/-- A Python float: `some q` is an exact value, `none` models NaN. -/
abbrev NFloat : Type := Option ℚ

/-- NaN-propagating binary arithmetic. -/
def nmap2 (f : ℚ → ℚ → ℚ) : NFloat → NFloat → NFloat
  | some a, some b => some (f a b)
  | _, _ => none

/-- NaN-propagating subtraction. -/
def nsub (a b : NFloat) : NFloat := nmap2 (fun x y => x - y) a b

/-- NaN-propagating absolute value. -/
def nabs : NFloat → NFloat
  | some a => some |a|
  | none => none

/-- Python float modulo with a positive constant modulus:
`a % m = a - m * ⌊a / m⌋` (result in `[0, m)`). -/
def qmod (a m : ℚ) : ℚ := a - m * ⌊a / m⌋

/-- NaN-propagating modulo. -/
def nmod (a : NFloat) (m : ℚ) : NFloat := a.map (fun x => qmod x m)

/-- Float `<`: any comparison involving NaN is false. -/
def nlt : NFloat → NFloat → Bool
  | some a, some b => decide (a < b)
  | _, _ => false

/-- Float `<=`: any comparison involving NaN is false. -/
def nle : NFloat → NFloat → Bool
  | some a, some b => decide (a ≤ b)
  | _, _ => false

/-- Lines 114-115 of the source:
`diff = abs(b_lon - t_lon) % 360; if diff > 180: diff = 360 - diff`. -/
def angSep (b t : NFloat) : NFloat :=
  let diff := nmod (nabs (nsub b t)) 360
  if nlt (some 180) diff then nmap2 (fun x y => x - y) (some 360) diff else diff

/-- The per-rule test of line 117: `abs(diff - ang) <= orb`. -/
def matchesRule (diff : NFloat) (r : ℚ × ℚ × ℚ) : Bool :=
  nle (nabs (nsub diff (some r.1))) (some r.2.1)

/-- The inner `for ang, orb, val in ASPECTS` loop with its `break`
(lines 116-122): the first rule in `ASPECTS` order whose test holds. -/
def firstMatch (diff : NFloat) : Option (ℚ × ℚ × ℚ) :=
  ASPECTS.find? (matchesRule diff)

/-- Line 119:
`weight = 1.0 + (0.25 if b_name in PRIORITY_PLANETS else 0) + (0.25 if t_name in PRIORITY_PLANETS else 0)`. -/
def weight (b t : Planet) : ℚ :=
  1 + (if isPriority b then 1/4 else 0) + (if isPriority t then 1/4 else 0)

/-- What one ordered pair `(b, t)` adds to `(score_sum, hits)`
(lines 116-122): `(val * weight, 1)` on the first matching rule,
`(0, 0)` when no rule matches. -/
def pairContrib (birth transit : Planet → NFloat) (b t : Planet) : ℚ × ℕ :=
  match firstMatch (angSep (birth b) (transit t)) with
  | some r => (r.2.2 * weight b t, 1)
  | none => (0, 0)

/-- The two nested loops of `calculate_score` (lines 110-122), accumulating
`(score_sum, hits)` over all 49 ordered pairs in dictionary order. -/
def scoreHits (birth transit : Planet → NFloat) : ℚ × ℕ :=
  planets.foldl
    (fun acc b =>
      planets.foldl
        (fun acc2 t =>
          let c := pairContrib birth transit b t
          (acc2.1 + c.1, acc2.2 + c.2))
        acc)
    (0, 0)

/-- Python `round(x, 2)`: round to two decimal places (half up; see header
note). -/
noncomputable def round2 (x : ℝ) : ℝ := (round (x * 100) : ℤ) / 100

/-- Line 124:
`return round((score_sum / hits) * np.log1p(hits), 2) if hits > 0 else 50.0`. -/
noncomputable def calculate_score (birth transit : Planet → NFloat) : ℝ :=
  let s := scoreHits birth transit
  if s.2 > 0 then round2 (((s.1 : ℝ) / (s.2 : ℝ)) * Real.log (1 + (s.2 : ℝ)))
  else 50

/-- A set of seven ordinary (non-NaN) longitudes, as passed for the birth
positions and for a fully-sampled transit day. -/
def lift (f : Planet → ℚ) : Planet → NFloat := fun p => some (f p)

/-- The 49 ordered `(birthBody, transitBody)` pairs, in loop order. -/
def allPairs : List (Planet × Planet) :=
  planets.flatMap (fun b => planets.map (fun t => (b, t)))

/- ### Zodiac mapper (`get_zodiac`, lines 126-138) -/

/-- The `signs` list of line 134. -/
def signs : List (ℚ × String) :=
  [(0, "Widder"), (30, "Stier"), (60, "Zwillinge"), (90, "Krebs"),
   (120, "Löwe"), (150, "Jungfrau"), (180, "Waage"), (210, "Skorpion"),
   (240, "Schütze"), (270, "Steinbock"), (300, "Wassermann"), (330, "Fische")]

/-- The `for i, (start, name) in enumerate(signs)` loop of lines 136-138.
`prev` carries `signs[i-1][1]`; it starts as `signs[0][1] = "Widder"`, which
reproduces the `if i > 0` fallback of line 137, and when the loop falls
through, `prev` is the last name, i.e. `signs[-1][1]` of line 138.
The comparison `degree < start` is float `<`, false on NaN. -/
def zodiacLoop (d : NFloat) : List (ℚ × String) → String → String
  | [], prev => prev
  | (start, _name) :: rest, prev =>
      if nlt d (some start) then prev
      else zodiacLoop d rest _name

/-- The mapper `get_zodiac` (lines 126-138): `degree %= 360`, then the
first-band loop. -/
def get_zodiac (degree : NFloat) : String :=
  zodiacLoop (nmod degree 360) signs "Widder"

/-- The sign names in band order: Aries (Widder), Taurus (Stier),
Gemini (Zwillinge), Cancer (Krebs), Leo (Löwe), Virgo (Jungfrau),
Libra (Waage), Scorpio (Skorpion), Sagittarius (Schütze),
Capricorn (Steinbock), Aquarius (Wassermann), Pisces (Fische). -/
def signNames : List String := signs.map (fun p => p.2)

/-- Specification-side formula (spec section 4.3), for the refinement
claim: the `floor((L mod 360) / 30)`-th entry of the fixed ordered sign
list. -/
def getZodiacSign (L : ℚ) : String :=
  signNames.getD (Int.toNat ⌊qmod L 360 / 30⌋) ""

/- ### Spec-side scoring formula (for C1) -/

/-- Spec-side accumulated score: each matching pair contributes
`rule.baseScore * weight`, summed over the 49 ordered pairs. -/
def specScore (birth transit : Planet → ℚ) : ℚ :=
  (allPairs.map (fun p =>
    match firstMatch (angSep (some (birth p.1)) (some (transit p.2))) with
    | some r => r.2.2 * weight p.1 p.2
    | none => 0)).sum

/-- Spec-side hit counter: how many of the 49 ordered pairs match a rule. -/
def specHits (birth transit : Planet → ℚ) : ℕ :=
  (allPairs.filter (fun p =>
    (firstMatch (angSep (some (birth p.1)) (some (transit p.2)))).isSome)).length

/- ### Score normalization (lines 172-173) -/

/-- pandas `.min()` over a nonempty column. -/
def listMin (x : ℚ) (xs : List ℚ) : ℚ := xs.foldl min x

/-- pandas `.max()` over a nonempty column. -/
def listMax (x : ℚ) (xs : List ℚ) : ℚ := xs.foldl max x

/-- Float division: `none` models the NaN (`0/0`) or infinity (`x/0`)
that a zero divisor produces silently in the script. -/
def divOpt (a b : ℚ) : Option ℚ := if b = 0 then none else some (a / b)

/-- Line 173 for one day: `(raw - s_min) / (s_max - s_min) * 100`. -/
def normEntry (smin smax s : ℚ) : Option ℚ :=
  (divOpt (s - smin) (smax - smin)).map (fun q => q * 100)

/-- Lines 172-173: `s_min, s_max` over the Score column, then the
normalized column. -/
def normalizeScores : List ℚ → List (Option ℚ)
  | [] => []
  | s :: rest => (s :: rest).map (normEntry (listMin s rest) (listMax s rest))

/-- The same formula as a total function on `ℚ`, meaningful when
`smax ≠ smin`. -/
def fNorm (smin smax s : ℚ) : ℚ := (s - smin) / (smax - smin) * 100

/- ### Zodiac-transition marking (lines 176-183) -/

/-- One row of the DataFrame, restricted to the columns the marking loop
reads (`Datum`) and writes (`Zodiac_Name`, `Zodiac_Start`); `datum` is the
(month, day) of the date within the fixed target year. -/
structure DailyRow where
  datum : ℕ × ℕ
  zodiacName : String
  zodiacStart : ℕ
deriving DecidableEq

/-- Lines 163-176: one row per returned date, with `Zodiac_Name = ""`
(line 165) and `Zodiac_Start = 0` (line 176). -/
def initRows (dates : List (ℕ × ℕ)) : List DailyRow :=
  dates.map (fun d => { datum := d, zodiacName := "", zodiacStart := 0 })

/-- The table `ZODIAC_START` (lines 56-61), in dict insertion order:
sign name ↦ fixed (month, day) start date. -/
def ZODIAC_START : List (String × (ℕ × ℕ)) :=
  [("Wassermann", (1, 20)), ("Fische", (2, 19)), ("Widder", (3, 21)),
   ("Stier", (4, 20)), ("Zwillinge", (5, 21)), ("Krebs", (6, 21)),
   ("Löwe", (7, 23)), ("Jungfrau", (8, 23)), ("Waage", (9, 23)),
   ("Skorpion", (10, 23)), ("Schütze", (11, 22)), ("Steinbock", (12, 22))]

/-- Lines 181-183: set `Zodiac_Start := 100` and `Zodiac_Name := sign` on a
row. -/
def markRow (sign : String) (r : DailyRow) : DailyRow :=
  { r with zodiacStart := 100, zodiacName := sign }

/-- Lines 179-183 for one sign: if some row's date equals the start date,
mark the first such row (`df.index[mask][0]`); otherwise change nothing. -/
def setFirst (md : ℕ × ℕ) (sign : String) : List DailyRow → List DailyRow
  | [] => []
  | r :: rs => if r.datum = md then markRow sign r :: rs else r :: setFirst md sign rs

/-- The `for sign, start_md in ZODIAC_START.items()` loop (lines 177-183),
over an arbitrary table. -/
def markWith (table : List (String × (ℕ × ℕ))) (rows : List DailyRow) : List DailyRow :=
  table.foldl (fun rs p => setFirst p.2 p.1 rs) rows

/-- The marking loop as run by the script, over `ZODIAC_START`. -/
def markTransitions (rows : List DailyRow) : List DailyRow :=
  markWith ZODIAC_START rows

/-- The sign (if any) whose fixed start date in `table` equals `d`. -/
def findSignIn (table : List (String × (ℕ × ℕ))) (d : ℕ × ℕ) : Option String :=
  (table.find? (fun p => decide (p.2 = d))).map (fun p => p.1)

/-- The sign (if any) whose fixed `ZODIAC_START` date equals `d`. -/
def findSign (d : ℕ × ℕ) : Option String := findSignIn ZODIAC_START d

end Astro

namespace Astro

/- ### Basic facts about `qmod` and `angSep` -/

theorem qmod_nonneg (a m : ℚ) (hm : 0 < m) : 0 ≤ qmod a m := by
  have h1 : ((⌊a / m⌋ : ℚ)) ≤ a / m := Int.floor_le _
  have h2 : m * (a / m) = a := by
    field_simp
  unfold qmod
  nlinarith [mul_le_mul_of_nonneg_left h1 (le_of_lt hm)]

theorem qmod_lt (a m : ℚ) (hm : 0 < m) : qmod a m < m := by
  have h2 : a / m < (⌊a / m⌋ : ℚ) + 1 := Int.lt_floor_add_one _
  have h3 : m * (a / m) = a := by
    field_simp
  unfold qmod
  nlinarith [mul_lt_mul_of_pos_left h2 hm]

/-- Evaluation of `angSep` on ordinary values, written directly over `ℚ`. -/
theorem angSep_some (a b : ℚ) :
    angSep (some a) (some b) =
      some (if 180 < qmod |a - b| 360 then 360 - qmod |a - b| 360
            else qmod |a - b| 360) := by
  simp only [angSep, nsub, nmap2, nabs, nmod, Option.map, nlt, decide_eq_true_eq]
  split_ifs <;> simp_all [nmap2]

/-- C6. For every pair of longitudes, the angular separation of
lines 114-115 is an ordinary value in the closed interval `[0, 180]`,
and it is symmetric in its two arguments. -/
theorem angSep_range_and_symm (a b : ℚ) :
    (∃ d : ℚ, angSep (some a) (some b) = some d ∧ 0 ≤ d ∧ d ≤ 180) ∧
      angSep (some a) (some b) = angSep (some b) (some a) := by
  constructor
  · refine ⟨_, angSep_some a b, ?_, ?_⟩
    · have h0 := qmod_nonneg |a - b| 360 (by norm_num)
      have h1 := qmod_lt |a - b| 360 (by norm_num)
      split_ifs with h <;> linarith
    · have h0 := qmod_nonneg |a - b| 360 (by norm_num)
      have h1 := qmod_lt |a - b| 360 (by norm_num)
      split_ifs with h <;> linarith
  · rw [angSep_some, angSep_some, abs_sub_comm]

/-- Witness for C6 at a concrete pair of longitudes. -/
theorem angSep_range_and_symm_witness :
    (∃ d : ℚ, angSep (some 10) (some 350) = some d ∧ 0 ≤ d ∧ d ≤ 180) ∧
      angSep (some 10) (some 350) = angSep (some 350) (some 10) :=
  angSep_range_and_symm 10 350

/- ### The zodiac loop against the direct banding formula -/

theorem zodiacLoop_nil (d : NFloat) (prev : String) :
    zodiacLoop d [] prev = prev := rfl

theorem zodiacLoop_cons (d start : ℚ) (nm : String)
    (rest : List (ℚ × String)) (prev : String) :
    zodiacLoop (some d) ((start, nm) :: rest) prev =
      if d < start then prev else zodiacLoop (some d) rest nm := by
  simp [zodiacLoop, nlt]

theorem zodiacLoop_eq_band (d : ℚ) (h0 : 0 ≤ d) (h1 : d < 360) :
    zodiacLoop (some d) signs "Widder" = signNames.getD (Int.toNat ⌊d / 30⌋) "" := by
  have hfloor : ∀ k : ℤ, (k : ℚ) * 30 ≤ d → d < ((k : ℚ) + 1) * 30 → ⌊d / 30⌋ = k := by
    intro k hlo hhi
    rw [Int.floor_eq_iff]
    constructor <;> push_cast <;> linarith
  simp only [signs, zodiacLoop_cons, zodiacLoop_nil]
  rcases lt_or_le d 30 with h | h30
  · rw [if_neg (by linarith), if_pos (by linarith),
      hfloor 0 (by push_cast; linarith) (by push_cast; linarith)]
    rfl
  rcases lt_or_le d 60 with h | h60
  · rw [if_neg (by linarith), if_neg (by linarith), if_pos (by linarith),
      hfloor 1 (by push_cast; linarith) (by push_cast; linarith)]
    rfl
  rcases lt_or_le d 90 with h | h90
  · rw [if_neg (by linarith), if_neg (by linarith), if_neg (by linarith),
      if_pos (by linarith), hfloor 2 (by push_cast; linarith) (by push_cast; linarith)]
    rfl
  rcases lt_or_le d 120 with h | h120
  · rw [if_neg (by linarith), if_neg (by linarith), if_neg (by linarith),
      if_neg (by linarith), if_pos (by linarith),
      hfloor 3 (by push_cast; linarith) (by push_cast; linarith)]
    rfl
  rcases lt_or_le d 150 with h | h150
  · rw [if_neg (by linarith), if_neg (by linarith), if_neg (by linarith),
      if_neg (by linarith), if_neg (by linarith), if_pos (by linarith),
      hfloor 4 (by push_cast; linarith) (by push_cast; linarith)]
    rfl
  rcases lt_or_le d 180 with h | h180
  · rw [if_neg (by linarith), if_neg (by linarith), if_neg (by linarith),
      if_neg (by linarith), if_neg (by linarith), if_neg (by linarith),
      if_pos (by linarith), hfloor 5 (by push_cast; linarith) (by push_cast; linarith)]
    rfl
  rcases lt_or_le d 210 with h | h210
  · rw [if_neg (by linarith), if_neg (by linarith), if_neg (by linarith),
      if_neg (by linarith), if_neg (by linarith), if_neg (by linarith),
      if_neg (by linarith), if_pos (by linarith),
      hfloor 6 (by push_cast; linarith) (by push_cast; linarith)]
    rfl
  rcases lt_or_le d 240 with h | h240
  · rw [if_neg (by linarith), if_neg (by linarith), if_neg (by linarith),
      if_neg (by linarith), if_neg (by linarith), if_neg (by linarith),
      if_neg (by linarith), if_neg (by linarith), if_pos (by linarith),
      hfloor 7 (by push_cast; linarith) (by push_cast; linarith)]
    rfl
  rcases lt_or_le d 270 with h | h270
  · rw [if_neg (by linarith), if_neg (by linarith), if_neg (by linarith),
      if_neg (by linarith), if_neg (by linarith), if_neg (by linarith),
      if_neg (by linarith), if_neg (by linarith), if_neg (by linarith),
      if_pos (by linarith), hfloor 8 (by push_cast; linarith) (by push_cast; linarith)]
    rfl
  rcases lt_or_le d 300 with h | h300
  · rw [if_neg (by linarith), if_neg (by linarith), if_neg (by linarith),
      if_neg (by linarith), if_neg (by linarith), if_neg (by linarith),
      if_neg (by linarith), if_neg (by linarith), if_neg (by linarith),
      if_neg (by linarith), if_pos (by linarith),
      hfloor 9 (by push_cast; linarith) (by push_cast; linarith)]
    rfl
  rcases lt_or_le d 330 with h | h330
  · rw [if_neg (by linarith), if_neg (by linarith), if_neg (by linarith),
      if_neg (by linarith), if_neg (by linarith), if_neg (by linarith),
      if_neg (by linarith), if_neg (by linarith), if_neg (by linarith),
      if_neg (by linarith), if_neg (by linarith), if_pos (by linarith),
      hfloor 10 (by push_cast; linarith) (by push_cast; linarith)]
    rfl
  · rw [if_neg (by linarith), if_neg (by linarith), if_neg (by linarith),
      if_neg (by linarith), if_neg (by linarith), if_neg (by linarith),
      if_neg (by linarith), if_neg (by linarith), if_neg (by linarith),
      if_neg (by linarith), if_neg (by linarith), if_neg (by linarith),
      hfloor 11 (by push_cast; linarith) (by push_cast; linarith)]
    rfl

/-- C4. The loop-based zodiac lookup equals the direct banding formula
(the `floor((L mod 360)/30)`-th sign of the fixed ordered list), and the
four spec examples hold: `0 ↦ Widder` (Aries), `29.9 ↦ Widder` (Aries),
`30 ↦ Stier` (Taurus), `359.99 ↦ Fische` (Pisces). -/
theorem get_zodiac_eq_band :
    (∀ L : ℚ, get_zodiac (some L) = getZodiacSign L) ∧
      get_zodiac (some 0) = "Widder" ∧
      get_zodiac (some (29.9 : ℚ)) = "Widder" ∧
      get_zodiac (some 30) = "Stier" ∧
      get_zodiac (some (359.99 : ℚ)) = "Fische" := by
  have main : ∀ L : ℚ, get_zodiac (some L) = getZodiacSign L := by
    intro L
    have h0 : 0 ≤ qmod L 360 := qmod_nonneg L 360 (by norm_num)
    have h1 : qmod L 360 < 360 := qmod_lt L 360 (by norm_num)
    exact zodiacLoop_eq_band (qmod L 360) h0 h1
  refine ⟨main, ?_, ?_, ?_, ?_⟩ <;>
    · rw [main]
      norm_num [getZodiacSign, qmod, signNames, signs, List.getD]
      try rfl

/-- C9. `get_zodiac` applied to a missing sample (NaN): the modulo keeps
NaN, every `degree < start` comparison is false, the loop falls through,
and the last sign name `"Fische"` (Pisces) is returned. -/
theorem get_zodiac_nan : get_zodiac none = "Fische" := by
  simp [get_zodiac, nmod, signs, zodiacLoop, nlt]

/- ### Scorer: per-pair facts -/

theorem matchesRule_some (d : ℚ) (r : ℚ × ℚ × ℚ) :
    matchesRule (some d) r = decide (|d - r.1| ≤ r.2.1) := rfl

theorem angSep_self (x : ℚ) : angSep (some x) (some x) = some 0 := by
  rw [angSep_some]
  norm_num [qmod]

theorem firstMatch_zero : firstMatch (some 0) = some ((0 : ℚ), (8 : ℚ), (100 : ℚ)) := by
  have h : matchesRule (some 0) ((0 : ℚ), (8 : ℚ), (100 : ℚ)) = true := by
    rw [matchesRule_some]
    norm_num
  simp [firstMatch, ASPECTS, List.find?, h]

/-- The pair of a birth body and a transit body at the same longitude
matches the conjunction rule and contributes `(100 * weight, 1)`. -/
theorem pairContrib_conj (birth transit : Planet → ℚ) (b t : Planet)
    (h : birth b = transit t) :
    pairContrib (lift birth) (lift transit) b t = (100 * weight b t, 1) := by
  have hsep : angSep (some (birth b)) (some (transit t)) = some 0 := by
    rw [h]; exact angSep_self _
  show (match firstMatch (angSep (some (birth b)) (some (transit t))) with
    | some r => (r.2.2 * weight b t, 1)
    | none => ((0 : ℚ), (0 : ℕ))) = (100 * weight b t, 1)
  rw [hsep, firstMatch_zero]

/-- C5. The aspect rules are tested in the fixed `ASPECTS` order and
exactly the first rule whose window test holds is the match; a pair of
identical longitudes matches the conjunction rule `(0, 8, 100)` before any
other and contributes `100 * weight`. -/
theorem aspect_order_first_match :
    (∀ diff : NFloat,
      (matchesRule diff (0, 8, 100) = true → firstMatch diff = some (0, 8, 100)) ∧
      (matchesRule diff (0, 8, 100) = false →
        matchesRule diff (60, 6, 70) = true → firstMatch diff = some (60, 6, 70)) ∧
      (matchesRule diff (0, 8, 100) = false → matchesRule diff (60, 6, 70) = false →
        matchesRule diff (90, 8, 25) = true → firstMatch diff = some (90, 8, 25)) ∧
      (matchesRule diff (0, 8, 100) = false → matchesRule diff (60, 6, 70) = false →
        matchesRule diff (90, 8, 25) = false →
        matchesRule diff (120, 8, 90) = true → firstMatch diff = some (120, 8, 90)) ∧
      (matchesRule diff (0, 8, 100) = false → matchesRule diff (60, 6, 70) = false →
        matchesRule diff (90, 8, 25) = false → matchesRule diff (120, 8, 90) = false →
        matchesRule diff (180, 8, 40) = true → firstMatch diff = some (180, 8, 40)) ∧
      (matchesRule diff (0, 8, 100) = false → matchesRule diff (60, 6, 70) = false →
        matchesRule diff (90, 8, 25) = false → matchesRule diff (120, 8, 90) = false →
        matchesRule diff (180, 8, 40) = false → firstMatch diff = none)) ∧
    (∀ (birth transit : Planet → ℚ) (b t : Planet),
      birth b = transit t →
        firstMatch (angSep (some (birth b)) (some (transit t))) = some (0, 8, 100) ∧
        pairContrib (lift birth) (lift transit) b t = (100 * weight b t, 1)) := by
  constructor
  · intro diff
    refine ⟨fun h1 => ?_, fun h1 h2 => ?_, fun h1 h2 h3 => ?_,
      fun h1 h2 h3 h4 => ?_, fun h1 h2 h3 h4 h5 => ?_, fun h1 h2 h3 h4 h5 => ?_⟩ <;>
      simp_all [firstMatch, ASPECTS, List.find?]
  · intro birth transit b t h
    have hsep : angSep (some (birth b)) (some (transit t)) = some 0 := by
      rw [h]; exact angSep_self _
    exact ⟨by rw [hsep, firstMatch_zero], pairContrib_conj birth transit b t h⟩

/-- Witness for C5: at separation 45 no rule matches; at coincident
longitude 100 the pair contributes the conjunction score. -/
theorem aspect_order_first_match_witness :
    firstMatch (some 45) = none ∧
      pairContrib (lift (fun _ => 100)) (lift (fun _ => 100)) .Sonne .Mond =
        (100 * weight .Sonne .Mond, 1) := by
  constructor
  · exact ((aspect_order_first_match.1 (some 45)).2.2.2.2.2
      (by rw [matchesRule_some]; norm_num)
      (by rw [matchesRule_some]; norm_num)
      (by rw [matchesRule_some]; norm_num)
      (by rw [matchesRule_some]; norm_num)
      (by rw [matchesRule_some]; norm_num))
  · exact (aspect_order_first_match.2 (fun _ => 100) (fun _ => 100) .Sonne .Mond rfl).2

/- ### Scorer: the nested fold as a sum over the 49 pairs -/

theorem pairContrib_fst (B T : Planet → NFloat) (b t : Planet) :
    (pairContrib B T b t).1 =
      match firstMatch (angSep (B b) (T t)) with
      | some r => r.2.2 * weight b t
      | none => 0 := by
  rcases h : firstMatch (angSep (B b) (T t)) with _ | r <;> simp [pairContrib, h]

theorem pairContrib_snd (B T : Planet → NFloat) (b t : Planet) :
    (pairContrib B T b t).2 =
      if (firstMatch (angSep (B b) (T t))).isSome then 1 else 0 := by
  rcases h : firstMatch (angSep (B b) (T t)) with _ | r <;> simp [pairContrib, h]

theorem sum_allPairs_q (F : Planet × Planet → ℚ) :
    (allPairs.map F).sum =
      (planets.map (fun b => (planets.map (fun t => F (b, t))).sum)).sum := by
  simp [allPairs, planets]
  ring

theorem sum_allPairs_n (F : Planet × Planet → ℕ) :
    (allPairs.map F).sum =
      (planets.map (fun b => (planets.map (fun t => F (b, t))).sum)).sum := by
  simp [allPairs, planets]
  omega

theorem scoreHits_eq (birth transit : Planet → NFloat) :
    scoreHits birth transit =
      ((allPairs.map (fun p => (pairContrib birth transit p.1 p.2).1)).sum,
       (allPairs.map (fun p => (pairContrib birth transit p.1 p.2).2)).sum) := by
  rw [sum_allPairs_q, sum_allPairs_n]
  simp only [scoreHits, planets, List.foldl, List.map, List.sum, List.foldr, Prod.mk.injEq]
  constructor
  · ring
  · omega

theorem sum_indicator {α : Type} (p : α → Bool) :
    ∀ l : List α, (l.map (fun x => if p x then 1 else 0)).sum = (l.filter p).length := by
  intro l
  induction l with
  | nil => rfl
  | cons a l ih =>
      rcases h : p a <;> simp [List.filter, h, ih] <;> omega

theorem scoreHits_eq_spec (birth transit : Planet → ℚ) :
    scoreHits (lift birth) (lift transit) =
      (specScore birth transit, specHits birth transit) := by
  rw [scoreHits_eq]
  have h1 : (fun p : Planet × Planet =>
      (pairContrib (lift birth) (lift transit) p.1 p.2).1) =
      fun p : Planet × Planet =>
        match firstMatch (angSep (some (birth p.1)) (some (transit p.2))) with
        | some r => r.2.2 * weight p.1 p.2
        | none => 0 := by
    funext p
    exact pairContrib_fst (lift birth) (lift transit) p.1 p.2
  have h2 : (fun p : Planet × Planet =>
      (pairContrib (lift birth) (lift transit) p.1 p.2).2) =
      fun p : Planet × Planet =>
        if (firstMatch (angSep (some (birth p.1)) (some (transit p.2)))).isSome
        then 1 else 0 := by
    funext p
    exact pairContrib_snd (lift birth) (lift transit) p.1 p.2
  rw [h1, h2, sum_indicator]
  rfl

/-- C1. `calculate_score` returns 50.0 when the hit counter over the 49
ordered pairs is 0, and otherwise
`round((accumulatedScore / hitCount) * ln(1 + hitCount), 2)`, where each
matching pair contributes `baseScore * weight` and
`weight = 1 + 0.25*[birth priority] + 0.25*[transit priority] ∈ {1, 1.25, 1.5}`. -/
theorem calculate_score_formula :
    (∀ birth transit : Planet → ℚ,
      calculate_score (lift birth) (lift transit) =
        if specHits birth transit = 0 then (50 : ℝ)
        else round2 (((specScore birth transit : ℝ) / (specHits birth transit : ℝ)) *
          Real.log (1 + (specHits birth transit : ℝ)))) ∧
    allPairs.length = 49 ∧
    (∀ b t : Planet,
      weight b t = 1 + (if isPriority b then 0.25 else 0) + (if isPriority t then 0.25 else 0) ∧
      (weight b t = 1 ∨ weight b t = 1.25 ∨ weight b t = 1.5)) := by
  refine ⟨?_, rfl, ?_⟩
  · intro birth transit
    have hs := scoreHits_eq_spec birth transit
    simp only [calculate_score, hs]
    rcases Nat.eq_zero_or_pos (specHits birth transit) with h | h
    · simp [h]
    · rw [if_pos h, if_neg (Nat.pos_iff_ne_zero.mp h)]
  · intro b t
    refine ⟨by norm_num [weight], ?_⟩
    rcases hb : isPriority b <;> rcases ht : isPriority t <;>
      simp [weight, hb, ht] <;> norm_num

/- ### Scorer: lower bounds (C10) -/

theorem weight_ge_one (b t : Planet) : 1 ≤ weight b t := by
  rcases hb : isPriority b <;> rcases ht : isPriority t <;>
    simp [weight, hb, ht] <;> norm_num

theorem pairContrib_le (B T : Planet → NFloat) (b t : Planet) :
    25 * (((pairContrib B T b t).2 : ℕ) : ℚ) ≤ (pairContrib B T b t).1 := by
  rcases h : firstMatch (angSep (B b) (T t)) with _ | r
  · simp [pairContrib, h]
  · have hmem : r ∈ ASPECTS := List.mem_of_find?_eq_some h
    have hw := weight_ge_one b t
    have hval : (25 : ℚ) ≤ r.2.2 := by
      fin_cases hmem <;> norm_num
    have hmul : r.2.2 * 1 ≤ r.2.2 * weight b t :=
      mul_le_mul_of_nonneg_left hw (by linarith)
    simp only [pairContrib, h]
    push_cast
    linarith

theorem score_sum_ge (birth transit : Planet → NFloat) :
    25 * (((scoreHits birth transit).2 : ℕ) : ℚ) ≤ (scoreHits birth transit).1 := by
  rw [scoreHits_eq]
  dsimp only
  rw [Nat.cast_list_sum, List.map_map, ← List.sum_map_mul_left]
  apply List.sum_le_sum
  intro p _
  simpa [Function.comp] using pairContrib_le birth transit p.1 p.2

theorem round2_ge_of_ge_25log2 {x : ℝ} (hx : 25 * Real.log 2 ≤ x) :
    25 * Real.log 2 ≤ round2 x := by
  have l2lo := Real.log_two_gt_d9
  have l2hi := Real.log_two_lt_d9
  have h1 : (1733 : ℤ) ≤ round (x * 100) := by
    rw [round_eq, Int.le_floor]
    push_cast
    nlinarith
  have h2 : (1733 : ℝ) ≤ ((round (x * 100) : ℤ) : ℝ) := by exact_mod_cast h1
  unfold round2
  nlinarith

/-- C10. `calculate_score` is always strictly positive: 50.0 with no hits,
and at least `25 * ln 2` (the smallest base score 25 at weight 1 and one
hit, damped by `ln 2`, rounded) with at least one hit. -/
theorem calculate_score_positive :
    ∀ birth transit : Planet → ℚ,
      0 < calculate_score (lift birth) (lift transit) ∧
      ((scoreHits (lift birth) (lift transit)).2 = 0 →
        calculate_score (lift birth) (lift transit) = 50) ∧
      ((scoreHits (lift birth) (lift transit)).2 ≠ 0 →
        25 * Real.log 2 ≤ calculate_score (lift birth) (lift transit)) := by
  intro birth transit
  have hzero : (scoreHits (lift birth) (lift transit)).2 = 0 →
      calculate_score (lift birth) (lift transit) = 50 := by
    intro h
    simp [calculate_score, h]
  have hposcase : (scoreHits (lift birth) (lift transit)).2 ≠ 0 →
      25 * Real.log 2 ≤ calculate_score (lift birth) (lift transit) := by
    intro h
    have hh : 0 < (scoreHits (lift birth) (lift transit)).2 := Nat.pos_of_ne_zero h
    have hsum := score_sum_ge (lift birth) (lift transit)
    have hhR : (1 : ℝ) ≤ ((scoreHits (lift birth) (lift transit)).2 : ℝ) := by
      exact_mod_cast hh
    have hsumR : 25 * ((scoreHits (lift birth) (lift transit)).2 : ℝ) ≤
        ((scoreHits (lift birth) (lift transit)).1 : ℝ) := by
      exact_mod_cast hsum
    have hdiv : (25 : ℝ) ≤ ((scoreHits (lift birth) (lift transit)).1 : ℝ) /
        ((scoreHits (lift birth) (lift transit)).2 : ℝ) := by
      rw [le_div_iff₀ (by linarith)]
      linarith
    have hlog : Real.log 2 ≤
        Real.log (1 + ((scoreHits (lift birth) (lift transit)).2 : ℝ)) :=
      Real.log_le_log (by norm_num) (by linarith)
    have hlog0 : 0 ≤ Real.log 2 := Real.log_nonneg (by norm_num)
    have hx : 25 * Real.log 2 ≤
        (((scoreHits (lift birth) (lift transit)).1 : ℝ) /
            ((scoreHits (lift birth) (lift transit)).2 : ℝ)) *
          Real.log (1 + ((scoreHits (lift birth) (lift transit)).2 : ℝ)) := by
      have hmul := mul_le_mul hdiv hlog hlog0 (by linarith)
      linarith
    have hcs : calculate_score (lift birth) (lift transit) =
        round2 ((((scoreHits (lift birth) (lift transit)).1 : ℝ) /
            ((scoreHits (lift birth) (lift transit)).2 : ℝ)) *
          Real.log (1 + ((scoreHits (lift birth) (lift transit)).2 : ℝ))) := by
      simp [calculate_score, hh]
    rw [hcs]
    exact round2_ge_of_ge_25log2 hx
  refine ⟨?_, hzero, hposcase⟩
  rcases Nat.eq_zero_or_pos (scoreHits (lift birth) (lift transit)).2 with h | h
  · rw [hzero h]
    norm_num
  · have hge := hposcase (Nat.pos_iff_ne_zero.mp h)
    have l2 := Real.log_two_gt_d9
    nlinarith

theorem scoreHits_const_zero :
    (scoreHits (lift (fun _ => 0)) (lift (fun _ => 0))).2 = 49 := by
  rw [scoreHits_eq]
  dsimp only
  have h : ∀ p ∈ allPairs,
      (pairContrib (lift (fun _ => (0 : ℚ))) (lift (fun _ => (0 : ℚ))) p.1 p.2).2 = 1 := by
    intro p _
    rw [pairContrib_conj (fun _ => 0) (fun _ => 0) p.1 p.2 rfl]
  rw [List.map_congr_left h]
  rfl

/-- Witness for C10: with every body at longitude 0, all 49 pairs hit, the
hit counter is nonzero, and the score is at least `25 * ln 2` and positive. -/
theorem calculate_score_positive_witness :
    (scoreHits (lift (fun _ => 0)) (lift (fun _ => 0))).2 ≠ 0 ∧
      25 * Real.log 2 ≤ calculate_score (lift (fun _ => 0)) (lift (fun _ => 0)) ∧
      0 < calculate_score (lift (fun _ => 0)) (lift (fun _ => 0)) := by
  have hne : (scoreHits (lift (fun _ => (0 : ℚ))) (lift (fun _ => (0 : ℚ)))).2 ≠ 0 := by
    rw [scoreHits_const_zero]
    norm_num
  exact ⟨hne, (calculate_score_positive (fun _ => 0) (fun _ => 0)).2.2 hne,
    (calculate_score_positive (fun _ => 0) (fun _ => 0)).1⟩

/- ### Missing samples (C3) -/

theorem angSep_none_right (b : NFloat) : angSep b none = none := by
  cases b <;> rfl

theorem firstMatch_none : firstMatch none = none := rfl

theorem pairContrib_none_right (B T : Planet → NFloat) (b t : Planet)
    (h : T t = none) : pairContrib B T b t = (0, 0) := by
  show (match firstMatch (angSep (B b) (T t)) with
    | some r => (r.2.2 * weight b t, 1)
    | none => ((0 : ℚ), (0 : ℕ))) = (0, 0)
  rw [h, angSep_none_right, firstMatch_none]

theorem pairHit_le_one (B T : Planet → NFloat) (b t : Planet) :
    (pairContrib B T b t).2 ≤ 1 := by
  rcases h : firstMatch (angSep (B b) (T t)) with _ | r <;> simp [pairContrib, h]

theorem sum_eq_sum_filter {α : Type} (p : α → Bool) (f : α → ℕ)
    (l : List α) (h : ∀ x ∈ l, p x = false → f x = 0) :
    (l.map f).sum = ((l.filter p).map f).sum := by
  induction l with
  | nil => rfl
  | cons a l ih =>
      have ha := h a (List.mem_cons_self a l)
      have hl : ∀ x ∈ l, p x = false → f x = 0 :=
        fun x hx => h x (List.mem_cons_of_mem a hx)
      rcases hp : p a with _ | _
      · simp [List.filter, hp, ih hl, ha hp]
      · simp [List.filter, hp, ih hl]

theorem sum_map_le_length {α : Type} (f : α → ℕ) (l : List α)
    (h : ∀ x ∈ l, f x ≤ 1) : (l.map f).sum ≤ l.length := by
  induction l with
  | nil => simp
  | cons a l ih =>
      have ha := h a (List.mem_cons_self a l)
      have hl : ∀ x ∈ l, f x ≤ 1 := fun x hx => h x (List.mem_cons_of_mem a hx)
      simp only [List.map, List.sum_cons, List.length_cons]
      have := ih hl
      omega

theorem length_filter_not_snd (q : Planet) :
    ((allPairs.filter (fun p => !decide (p.2 = q))).length) = 42 := by
  cases q <;> rfl

/-- C3. When one transit body's sample is missing (NaN), every pair with
that transit body contributes no hit and no score, the day's hit count is
at most 42 of the 49 pairs, and if it drops to 0 the neutral 50.0 is
returned; `calculate_score` is total, so the run does not abort. -/
theorem missing_sample_score :
    ∀ (birth : Planet → ℚ) (transit : Planet → NFloat) (q0 : Planet),
      transit q0 = none →
        (∀ b : Planet, pairContrib (lift birth) transit b q0 = (0, 0)) ∧
        (scoreHits (lift birth) transit).2 ≤ 42 ∧
        ((scoreHits (lift birth) transit).2 = 0 →
          calculate_score (lift birth) transit = 50) := by
  intro birth transit q0 h
  refine ⟨fun b => pairContrib_none_right _ _ b q0 h, ?_, fun hz => by
    simp [calculate_score, hz]⟩
  rw [scoreHits_eq]
  dsimp only
  rw [sum_eq_sum_filter (fun p => !decide (p.2 = q0))
    (fun p => (pairContrib (lift birth) transit p.1 p.2).2) allPairs
    (by
      intro x _ hx
      have hq : x.2 = q0 := by
        by_contra hne
        simp [hne] at hx
      show (pairContrib (lift birth) transit x.1 x.2).2 = 0
      rw [hq, pairContrib_none_right _ _ x.1 q0 h])]
  calc ((allPairs.filter (fun p => !decide (p.2 = q0))).map
        (fun p => (pairContrib (lift birth) transit p.1 p.2).2)).sum ≤
      (allPairs.filter (fun p => !decide (p.2 = q0))).length :=
        sum_map_le_length _ _ (fun x _ => pairHit_le_one _ _ x.1 x.2)
    _ = 42 := length_filter_not_snd q0

/-- Witness for C3: all transit samples missing — every pair contributes
nothing, the hit count is 0 (hence at most 42), and the score is 50.0. -/
theorem missing_sample_score_witness :
    (scoreHits (lift (fun _ => 0)) (fun _ => none)).2 ≤ 42 ∧
      calculate_score (lift (fun _ => 0)) (fun _ => none) = 50 := by
  have h := missing_sample_score (fun _ => 0) (fun _ => none) .Sonne rfl
  exact ⟨h.2.1, h.2.2 (by decide)⟩

/- ### Normalization: fold min/max facts -/

theorem listMin_cons (x a : ℚ) (l : List ℚ) :
    listMin x (a :: l) = listMin (min x a) l := rfl

theorem listMax_cons (x a : ℚ) (l : List ℚ) :
    listMax x (a :: l) = listMax (max x a) l := rfl

theorem listMin_mem (x : ℚ) (xs : List ℚ) : listMin x xs ∈ x :: xs := by
  induction xs generalizing x with
  | nil => simp [listMin]
  | cons a l ih =>
      rw [listMin_cons]
      rcases List.mem_cons.mp (ih (min x a)) with h | h
      · rcases min_choice x a with hm | hm <;> rw [h, hm] <;> simp
      · simp [List.mem_cons, h]

theorem listMin_le (x : ℚ) (xs : List ℚ) :
    ∀ y ∈ x :: xs, listMin x xs ≤ y := by
  induction xs generalizing x with
  | nil =>
      intro y hy
      rcases List.mem_cons.mp hy with h | h
      · simp [listMin, h]
      · simp at h
  | cons a l ih =>
      intro y hy
      rw [listMin_cons]
      have hhead : listMin (min x a) l ≤ min x a :=
        ih (min x a) (min x a) (List.mem_cons_self _ _)
      rcases List.mem_cons.mp hy with h | h
      · rw [h] at *
        exact le_trans hhead (min_le_left _ _)
      rcases List.mem_cons.mp h with h2 | h2
      · rw [h2] at *
        exact le_trans hhead (min_le_right _ _)
      · exact ih (min x a) y (List.mem_cons_of_mem _ h2)

theorem listMax_mem (x : ℚ) (xs : List ℚ) : listMax x xs ∈ x :: xs := by
  induction xs generalizing x with
  | nil => simp [listMax]
  | cons a l ih =>
      rw [listMax_cons]
      rcases List.mem_cons.mp (ih (max x a)) with h | h
      · rcases max_choice x a with hm | hm <;> rw [h, hm] <;> simp
      · simp [List.mem_cons, h]

theorem le_listMax (x : ℚ) (xs : List ℚ) :
    ∀ y ∈ x :: xs, y ≤ listMax x xs := by
  induction xs generalizing x with
  | nil =>
      intro y hy
      rcases List.mem_cons.mp hy with h | h
      · simp [listMax, h]
      · simp at h
  | cons a l ih =>
      intro y hy
      rw [listMax_cons]
      have hhead : max x a ≤ listMax (max x a) l :=
        ih (max x a) (max x a) (List.mem_cons_self _ _)
      rcases List.mem_cons.mp hy with h | h
      · rw [h] at *
        exact le_trans (le_max_left _ _) hhead
      rcases List.mem_cons.mp h with h2 | h2
      · rw [h2] at *
        exact le_trans (le_max_right _ _) hhead
      · exact ih (max x a) y (List.mem_cons_of_mem _ h2)

/-- C7. For a non-degenerate score column (`max > min`), normalization is
total (no NaN entry), and the minimum of the normalized scores is 0 while
the maximum is 100. -/
theorem normalize_minmax :
    ∀ (s : ℚ) (rest : List ℚ),
      listMin s rest < listMax s rest →
        (normalizeScores (s :: rest) =
          (s :: rest).map (fun x =>
            some (fNorm (listMin s rest) (listMax s rest) x))) ∧
        listMin (fNorm (listMin s rest) (listMax s rest) s)
          (rest.map (fNorm (listMin s rest) (listMax s rest))) = 0 ∧
        listMax (fNorm (listMin s rest) (listMax s rest) s)
          (rest.map (fNorm (listMin s rest) (listMax s rest))) = 100 := by
  intro s rest hlt
  have hΔ : 0 < listMax s rest - listMin s rest := by linarith
  have hΔne : listMax s rest - listMin s rest ≠ 0 := ne_of_gt hΔ
  have hentry : normEntry (listMin s rest) (listMax s rest) =
      fun x => some (fNorm (listMin s rest) (listMax s rest) x) := by
    funext x
    simp [normEntry, divOpt, hΔne, fNorm]
  have hmap : ∀ y ∈ (fNorm (listMin s rest) (listMax s rest) s) ::
      rest.map (fNorm (listMin s rest) (listMax s rest)),
      ∃ x ∈ s :: rest, y = fNorm (listMin s rest) (listMax s rest) x := by
    intro y hy
    have : y ∈ (s :: rest).map (fNorm (listMin s rest) (listMax s rest)) := hy
    rcases List.mem_map.mp this with ⟨x, hx, hxy⟩
    exact ⟨x, hx, hxy.symm⟩
  have hlb : ∀ y ∈ (fNorm (listMin s rest) (listMax s rest) s) ::
      rest.map (fNorm (listMin s rest) (listMax s rest)), 0 ≤ y := by
    intro y hy
    rcases hmap y hy with ⟨x, hx, rfl⟩
    have hx1 : listMin s rest ≤ x := listMin_le s rest x hx
    have : 0 ≤ (x - listMin s rest) / (listMax s rest - listMin s rest) :=
      div_nonneg (by linarith) (le_of_lt hΔ)
    unfold fNorm
    linarith
  have hub : ∀ y ∈ (fNorm (listMin s rest) (listMax s rest) s) ::
      rest.map (fNorm (listMin s rest) (listMax s rest)), y ≤ 100 := by
    intro y hy
    rcases hmap y hy with ⟨x, hx, rfl⟩
    have hx2 : x ≤ listMax s rest := le_listMax s rest x hx
    have : (x - listMin s rest) / (listMax s rest - listMin s rest) ≤ 1 := by
      rw [div_le_one hΔ]
      linarith
    unfold fNorm
    linarith
  have hmin0 : fNorm (listMin s rest) (listMax s rest) (listMin s rest) = 0 := by
    simp [fNorm]
  have hmax100 : fNorm (listMin s rest) (listMax s rest) (listMax s rest) = 100 := by
    unfold fNorm
    rw [div_self hΔne]
    ring
  have hmem0 : fNorm (listMin s rest) (listMax s rest) (listMin s rest) ∈
      (fNorm (listMin s rest) (listMax s rest) s) ::
        rest.map (fNorm (listMin s rest) (listMax s rest)) :=
    List.mem_map_of_mem _ (listMin_mem s rest)
  have hmem100 : fNorm (listMin s rest) (listMax s rest) (listMax s rest) ∈
      (fNorm (listMin s rest) (listMax s rest) s) ::
        rest.map (fNorm (listMin s rest) (listMax s rest)) :=
    List.mem_map_of_mem _ (listMax_mem s rest)
  refine ⟨?_, ?_, ?_⟩
  · show (s :: rest).map (normEntry (listMin s rest) (listMax s rest)) = _
    rw [hentry]
  · apply le_antisymm
    · have := listMin_le (fNorm (listMin s rest) (listMax s rest) s)
        (rest.map (fNorm (listMin s rest) (listMax s rest))) _ hmem0
      rw [hmin0] at this
      exact this
    · have := listMin_mem (fNorm (listMin s rest) (listMax s rest) s)
        (rest.map (fNorm (listMin s rest) (listMax s rest)))
      exact hlb _ this
  · apply le_antisymm
    · have := listMax_mem (fNorm (listMin s rest) (listMax s rest) s)
        (rest.map (fNorm (listMin s rest) (listMax s rest)))
      exact hub _ this
    · have := le_listMax (fNorm (listMin s rest) (listMax s rest) s)
        (rest.map (fNorm (listMin s rest) (listMax s rest))) _ hmem100
      rw [hmax100] at this
      exact this

/-- Witness for C7 on the column `[0, 100]`. -/
theorem normalize_minmax_witness :
    (normalizeScores [0, 100] =
      [0, 100].map (fun x => some (fNorm (listMin 0 [100]) (listMax 0 [100]) x))) ∧
      listMin (fNorm (listMin 0 [100]) (listMax 0 [100]) 0)
        ([100].map (fNorm (listMin 0 [100]) (listMax 0 [100]))) = 0 ∧
      listMax (fNorm (listMin 0 [100]) (listMax 0 [100]) 0)
        ([100].map (fNorm (listMin 0 [100]) (listMax 0 [100]))) = 100 :=
  normalize_minmax 0 [100] (by norm_num [listMin, listMax])

/-- C2 evidence. When all raw scores of the year are identical, the
normalization line divides by zero for every day and silently yields only
undefined entries (NaN, modelled `none`) — there is no detection, fallback
or skip in the code. -/
theorem normalize_degenerate :
    ∀ (c : ℚ) (n : ℕ),
      normalizeScores (c :: List.replicate n c) = List.replicate (n + 1) none := by
  intro c n
  have hmin : listMin c (List.replicate n c) = c := by
    induction n with
    | zero => rfl
    | succ n ih =>
        show List.foldl min c (c :: List.replicate n c) = c
        simp only [List.foldl, min_self]
        exact ih
  have hmax : listMax c (List.replicate n c) = c := by
    clear hmin
    induction n with
    | zero => rfl
    | succ n ih =>
        show List.foldl max c (c :: List.replicate n c) = c
        simp only [List.foldl, max_self]
        exact ih
  have hent : normEntry c c = fun _ => (none : Option ℚ) := by
    funext x
    simp [normEntry, divOpt]
  show (c :: List.replicate n c).map
      (normEntry (listMin c (List.replicate n c)) (listMax c (List.replicate n c))) = _
  rw [hmin, hmax, hent]
  simp [List.map_replicate, List.replicate_succ]

/- ### Zodiac-transition marking (C8) -/

theorem setFirst_map_datum (md : ℕ × ℕ) (sg : String) (rows : List DailyRow) :
    (setFirst md sg rows).map DailyRow.datum = rows.map DailyRow.datum := by
  induction rows with
  | nil => rfl
  | cons r rs ih =>
      by_cases hr : r.datum = md
      · simp [setFirst, hr, markRow]
      · simp [setFirst, hr, ih]

theorem setFirst_forall2 (md : ℕ × ℕ) (sg : String) (rows : List DailyRow)
    (hnod : (rows.map DailyRow.datum).Nodup) :
    List.Forall₂ (fun r r2 => if r.datum = md then r2 = markRow sg r else r2 = r)
      rows (setFirst md sg rows) := by
  induction rows with
  | nil => exact List.Forall₂.nil
  | cons r rs ih =>
      simp only [List.map, List.nodup_cons] at hnod
      obtain ⟨hmem, htail⟩ := hnod
      by_cases hr : r.datum = md
      · show List.Forall₂ _ (r :: rs) (if r.datum = md then markRow sg r :: rs
          else r :: setFirst md sg rs)
        rw [if_pos hr]
        refine List.Forall₂.cons (by rw [if_pos hr]) ?_
        apply List.forall₂_same.mpr
        intro x hx
        have hxd : ¬ x.datum = md := by
          intro hxmd
          apply hmem
          rw [hr, ← hxmd]
          exact List.mem_map_of_mem DailyRow.datum hx
        rw [if_neg hxd]
      · show List.Forall₂ _ (r :: rs) (if r.datum = md then markRow sg r :: rs
          else r :: setFirst md sg rs)
        rw [if_neg hr]
        exact List.Forall₂.cons (by rw [if_neg hr]) (ih htail)

theorem forall2_comp {α β γ : Type} {R : α → β → Prop} {S : β → γ → Prop} :
    ∀ {a : List α} {b : List β} {c : List γ},
      List.Forall₂ R a b → List.Forall₂ S b c →
      List.Forall₂ (fun x z => ∃ y, R x y ∧ S y z) a c := by
  intro a b c hab
  induction hab generalizing c with
  | nil =>
      intro hbc
      cases hbc
      exact List.Forall₂.nil
  | cons hR _ ih =>
      intro hbc
      cases hbc with
      | cons hS hbc => exact List.Forall₂.cons ⟨_, hR, hS⟩ (ih hbc)

theorem findSignIn_nil (d : ℕ × ℕ) : findSignIn [] d = none := rfl

theorem findSignIn_cons_self (sg : String) (md : ℕ × ℕ)
    (table : List (String × (ℕ × ℕ))) :
    findSignIn ((sg, md) :: table) md = some sg := by
  simp [findSignIn, List.find?]

theorem findSignIn_cons_ne (sg : String) (md d : ℕ × ℕ)
    (table : List (String × (ℕ × ℕ))) (h : d ≠ md) :
    findSignIn ((sg, md) :: table) d = findSignIn table d := by
  have hbeq : decide (md = d) = false := decide_eq_false (fun hh => h hh.symm)
  simp [findSignIn, List.find?, hbeq]

theorem findSignIn_eq_none (table : List (String × (ℕ × ℕ))) (d : ℕ × ℕ)
    (h : d ∉ table.map (fun p => p.2)) : findSignIn table d = none := by
  induction table with
  | nil => rfl
  | cons p table ih =>
      obtain ⟨sg, md⟩ := p
      simp only [List.map, List.mem_cons] at h
      push_neg at h
      rw [findSignIn_cons_ne sg md d table h.1]
      exact ih h.2

theorem markWith_spec :
    ∀ (table : List (String × (ℕ × ℕ))) (rows : List DailyRow),
      (table.map (fun p => p.2)).Nodup →
      (rows.map DailyRow.datum).Nodup →
      List.Forall₂ (fun r r2 =>
          (∀ sg, findSignIn table r.datum = some sg → r2 = markRow sg r) ∧
          (findSignIn table r.datum = none → r2 = r))
        rows (markWith table rows) := by
  intro table
  induction table with
  | nil =>
      intro rows _ _
      have h : List.Forall₂ (fun (r r2 : DailyRow) =>
          (∀ sg, findSignIn [] r.datum = some sg → r2 = markRow sg r) ∧
          (findSignIn [] r.datum = none → r2 = r)) rows rows := by
        apply List.forall₂_same.mpr
        intro x _
        refine ⟨fun sg hsg => ?_, fun _ => rfl⟩
        rw [findSignIn_nil] at hsg
        cases hsg
      exact h
  | cons p table ih =>
      intro rows htab hnod
      obtain ⟨sg, md⟩ := p
      simp only [List.map, List.nodup_cons] at htab
      obtain ⟨hmd, htab2⟩ := htab
      have h1 := setFirst_forall2 md sg rows hnod
      have hnod2 : ((setFirst md sg rows).map DailyRow.datum).Nodup := by
        rw [setFirst_map_datum]
        exact hnod
      have h2 := ih (setFirst md sg rows) htab2 hnod2
      have h3 := forall2_comp h1 h2
      have hstep : markWith ((sg, md) :: table) rows =
          markWith table (setFirst md sg rows) := rfl
      rw [hstep]
      refine h3.imp ?_
      rintro r r2 ⟨y, hy1, hy2⟩
      by_cases hr : r.datum = md
      · rw [if_pos hr] at hy1
        subst hy1
        have hnone : findSignIn table r.datum = none := by
          rw [hr]
          exact findSignIn_eq_none table md hmd
        have hr2 : r2 = markRow sg r := hy2.2 hnone
        have hfull : findSignIn ((sg, md) :: table) r.datum = some sg := by
          rw [hr]
          exact findSignIn_cons_self sg md table
        refine ⟨fun sg2 hsg2 => ?_, fun hn => ?_⟩
        · rw [hfull] at hsg2
          injection hsg2 with hsg2
          rw [← hsg2]
          exact hr2
        · rw [hfull] at hn
          cases hn
      · rw [if_neg hr] at hy1
        rw [hy1] at hy2
        have hstep2 : findSignIn ((sg, md) :: table) r.datum =
            findSignIn table r.datum := findSignIn_cons_ne sg md r.datum table hr
        exact ⟨fun sg2 hsg2 => hy2.1 sg2 (by rw [← hstep2]; exact hsg2),
          fun hn => hy2.2 (by rw [← hstep2]; exact hn)⟩

theorem initRows_map_datum (dates : List (ℕ × ℕ)) :
    (initRows dates).map DailyRow.datum = dates := by
  rw [initRows, List.map_map]
  exact List.map_id dates

/-- C8. For every sequence of pairwise-distinct dates, the marking loop
turns exactly the rows whose date is some sign's fixed `ZODIAC_START`
start date into transition rows (flag 100 and the sign's name); all other
rows are unchanged, hence keep flag 0 and the empty name they were built
with; the twelve start dates are pairwise distinct, so each start date
belongs to exactly one sign. -/
theorem zodiac_transition_marking :
    (∀ dates : List (ℕ × ℕ), dates.Nodup →
      List.Forall₂ (fun r r2 =>
          (∀ sg, findSign r.datum = some sg → r2 = markRow sg r) ∧
          (findSign r.datum = none → r2 = r))
        (initRows dates) (markTransitions (initRows dates))) ∧
    (∀ dates : List (ℕ × ℕ), ∀ r ∈ initRows dates,
      r.zodiacStart = 0 ∧ r.zodiacName = "") ∧
    (∀ (sg : String) (r : DailyRow),
      (markRow sg r).zodiacStart = 100 ∧ (markRow sg r).zodiacName = sg ∧
        (markRow sg r).datum = r.datum) ∧
    (ZODIAC_START.map (fun p => p.2)).Nodup ∧
    (∀ p ∈ ZODIAC_START, findSign p.2 = some p.1) := by
  refine ⟨?_, ?_, fun sg r => ⟨rfl, rfl, rfl⟩, by decide, by decide⟩
  · intro dates hnod
    have hrows : ((initRows dates).map DailyRow.datum).Nodup := by
      rw [initRows_map_datum]
      exact hnod
    exact markWith_spec ZODIAC_START (initRows dates) (by decide) hrows
  · intro dates r hr
    rcases List.mem_map.mp hr with ⟨d, _, rfl⟩
    exact ⟨rfl, rfl⟩

/-- Witness for C8 at a two-day sequence containing the Wassermann start
date (1, 20). -/
theorem zodiac_transition_marking_witness :
    List.Forall₂ (fun r r2 =>
        (∀ sg, findSign r.datum = some sg → r2 = markRow sg r) ∧
        (findSign r.datum = none → r2 = r))
      (initRows [(1, 19), (1, 20)])
      (markTransitions (initRows [(1, 19), (1, 20)])) :=
  zodiac_transition_marking.1 [(1, 19), (1, 20)] (by decide)

end Astro
